import Mathlib

/-!
# Verification of `src/apps/wallets/manager.py` (specter-diy wallet manager)

Shallow embedding of the wallet manager core: stream classification
(`parse_stream`), the signing pipeline of `sign_psbt` (decode error handling,
custom-sighash collection, the confidential range-proof digest pass, signature
accounting), the ownership/metadata engine `parse_psbt` (wallet matching,
gap-limit checks, warnings), and the asset-label registry
(`add_asset` / `assets_json` / storage paths of `save_assets` / `load_assets`).

Bytes are modelled as `List Nat` (each entry a byte value), Python `dict`s as
insertion-ordered association lists, fallible Python code as `Except PyError`.
External collaborators (the wallet descriptor runtime, keystore, secp256k1,
GUI) are modelled by explicit data fields or function parameters, never
reimplemented; everything else follows `manager.py` line by line.
-/

set_option linter.unusedVariables false

namespace SpecterDIY

/-- Python runtime errors that the embedded code can raise. -/
inductive PyError
  | nameError (n : String)      -- reference to an undefined variable
  | keyError                    -- dict lookup miss
  | indexError                  -- list index out of range
  | attributeError (n : String) -- attribute access on None
  | assertionError              -- failed `assert`
  | walletError (msg : String)  -- WalletError raised by the module
deriving Repr, DecidableEq

/-! ## SIGHASH constants (bitcoin.liquid.transaction.LSIGHASH) -/

def SIGHASH_ALL : Nat := 1
def SIGHASH_NONE : Nat := 2
def SIGHASH_SINGLE : Nat := 3
def SIGHASH_ANYONECANPAY : Nat := 0x80
def SIGHASH_RANGEPROOF : Nat := 0x40

/-- Module-level dict `SIGHASH_NAMES` (manager.py lines 41-51): base names,
then each ORed with ANYONECANPAY, then each of those ORed with RANGEPROOF. -/
def SIGHASH_NAMES : List (Nat × String) :=
  let base : List (Nat × String) := [(SIGHASH_ALL, "ALL"), (SIGHASH_NONE, "NONE"), (SIGHASH_SINGLE, "SINGLE")]
  let withAcp := base ++ base.map (fun p => (p.1 ||| SIGHASH_ANYONECANPAY, p.2 ++ " | ANYONECANPAY"))
  withAcp ++ withAcp.map (fun p => (p.1 ||| SIGHASH_RANGEPROOF, p.2 ++ " | RANGEPROOF"))

/-- Python dict lookup on an insertion-ordered association list (keys unique). -/
def dict_get {α β : Type} [BEq α] (d : List (α × β)) (k : α) : Option β :=
  (d.find? (fun p => p.1 == k)).map (fun p => p.2)

/-- Python `d[k] = v`: replace in place if the key exists, append otherwise. -/
def dict_set {α β : Type} [BEq α] (d : List (α × β)) (k : α) (v : β) : List (α × β) :=
  if d.any (fun p => p.1 == k) then d.map (fun p => if p.1 == k then (k, v) else p)
  else d ++ [(k, v)]

/-- Python `inp.sighash_type or SIGHASH.ALL` (a declared sighash of 0 is falsy). -/
def sighash_or_all (st : Option Nat) : Nat :=
  match st with
  | some s => if s ≠ 0 then s else SIGHASH_ALL
  | none => SIGHASH_ALL

/-! ## Data model

A wallet's descriptor runtime (`wallet.py`, an external collaborator) is
abstracted by an ownership oracle: each input/output of a transaction is
summarised by an opaque `key : Nat` standing for the data passed to
`w.owns(...)` (previous-output script, bip32 derivations, redeem/witness
script, and, for confidential outputs, the blinding public key), and a wallet
carries the list of keys it owns together with the `(branch, index)` pair that
`w.get_derivation(...)` would return for them.  `owns` and `get_derivation`
are deterministic functions of that data in the real code, so this is a
faithful functional abstraction. -/

structure Wallet where
  name : String
  /-- persisted per-branch gap bounds `w.gaps` -/
  gaps : List Nat
  /-- `type(w).GAP_LIMIT` -/
  gap_limit : Nat
  /-- ownership oracle: `(item key, branch index, address index)` entries -/
  derivations : List (Nat × Nat × Nat)
deriving Repr, DecidableEq

def Wallet.owns (w : Wallet) (k : Nat) : Bool :=
  (w.derivations.find? (fun e => e.1 == k)).isSome

def Wallet.get_derivation (w : Wallet) (k : Nat) : Nat × Nat :=
  match w.derivations.find? (fun e => e.1 == k) with
  | some e => (e.2.1, e.2.2)
  | none => (0, 0)

/-- A PSBT/PSET input together with the fields of the previous output that
`parse_psbt` and `sign_psbt` read. -/
structure PsbtIn where
  /-- ownership-oracle key for `(psbt.utxo(i), inp.bip32_derivations, inp.witness_script or inp.redeem_script)` -/
  key : Nat
  /-- `psbt.utxo(i).value` (bitcoin value path) -/
  utxo_value : Nat
  /-- `inp.value` (unblinded value, liquid path) -/
  inp_value : Nat
  /-- `inp.asset` (unblinded asset id bytes, liquid path) -/
  asset : List Nat
  /-- `inp.sighash_type` (None when not declared) -/
  sighash_type : Option Nat
deriving Repr, DecidableEq

/-- A PSBT/PSET output together with the fields of `psbt.tx.vout[i]` that
`parse_psbt` reads. -/
structure PsbtOut where
  /-- ownership-oracle key for `(psbt.tx.vout[i], out.bip32_derivations, out.witness_script or out.redeem_script)` -/
  key : Nat
  /-- `psbt.tx.vout[i].value` -/
  value : Nat
  /-- `psbt.tx.vout[i].script_pubkey.data == b""` (liquid fee output) -/
  script_empty : Bool
  /-- truthiness of `out.blinding_pubkey` -/
  blinding_pubkey : Bool
  /-- `vout.asset[1:]` (liquid) -/
  asset : List Nat
  /-- display address computed by `get_address(...)` (external rendering) -/
  address : String
deriving Repr, DecidableEq

structure Psbt where
  inputs : List PsbtIn
  outputs : List PsbtOut
  /-- `psbt.fee()` -/
  fee : Nat
deriving Repr, DecidableEq

/-- The distinct warning strings `parse_psbt` can append to `meta["warnings"]`. -/
inductive Warning
  | unknownWallet            -- "Unknown wallet in input!"
  | mixedInputs              -- "Mixed inputs!" (line 725; never reached, see C5)
  | gapLimit (idx : Nat)     -- "Address index %d is beyond the gap limit!"
deriving Repr, DecidableEq

def Warning.isGap : Warning → Bool
  | .gapLimit _ => true
  | _ => false

/-- `meta["inputs"][i]` after the input pass. -/
structure InMeta where
  asset : Option String
  label : String
  value : Nat
  sighash : String
deriving Repr, DecidableEq

/-- `meta["outputs"][i]`. `label` is `none` until the change pass sets it
(the gap pass raises KeyError when it is missing). -/
structure OutMeta where
  address : String
  value : Nat
  change : Bool
  asset : Option String
  label : Option String
deriving Repr, DecidableEq

structure PsbtMeta where
  inputs : List InMeta
  outputs : List OutMeta
  fee : Nat
  warnings : List Warning
  unknown_assets : List (List Nat)
deriving Repr, DecidableEq

/-- The branch-qualified index annotation used for both inputs (lines 700-705)
and change outputs (lines 769-774). -/
def branch_label (branch_idx idx : Nat) : String :=
  if branch_idx = 1 then " change " ++ toString idx
  else if branch_idx = 0 then " #" ++ toString idx
  else " #" ++ toString idx ++ " on branch " ++ toString branch_idx

/-- Lines 706-720: fold a spend into the wallets/amounts accumulators,
creating the entry on first occurrence (`None` is the unknown-wallet bucket). -/
def add_spend (wallets : List (Option Wallet)) (amounts : List Nat)
    (entry : Option Wallet) (value : Nat) : List (Option Wallet) × List Nat :=
  match wallets.findIdx? (fun x => x == entry) with
  | none => (wallets ++ [entry], amounts ++ [value])
  | some j => (wallets, amounts.set j (amounts.getD j 0 + value))

/-- Lines 680-720: the per-input pass of `parse_psbt`.  `store` is
`self.wallets`, `assets` is `self.assets`. -/
def parse_psbt_inputs_pass (store : List Wallet) (assets : List (List Nat × String))
    (liquid : Bool) (default_asset : Option String) :
    List PsbtIn → List (Option Wallet) → List Nat → List InMeta → List (List Nat) →
    Except PyError (List (Option Wallet) × List Nat × List InMeta × List (List Nat))
  | [], wallets, amounts, inMetas, unknowns => .ok (wallets, amounts, inMetas, unknowns)
  | inp :: rest, wallets, amounts, inMetas, unknowns =>
    -- line 684: value from utxo (bitcoin) or from the unblinded input (liquid)
    let value := if liquid then inp.inp_value else inp.utxo_value
    -- lines 685-690: resolve the asset label, collect unknown assets
    let assetLbl : Option String := if liquid then dict_get assets inp.asset else default_asset
    let unknowns1 :=
      if liquid ∧ dict_get assets inp.asset = none ∧ ¬ unknowns.contains inp.asset
      then unknowns ++ [inp.asset] else unknowns
    -- line 694: `SIGHASH_NAMES[inp.sighash_type or SIGHASH.ALL]` (KeyError on miss)
    match dict_get SIGHASH_NAMES (sighash_or_all inp.sighash_type) with
    | none => .error .keyError
    | some shName =>
      -- lines 696-713: first wallet in store order owning the input wins
      match store.find? (fun w => w.owns inp.key) with
      | some w =>
        let d := w.get_derivation inp.key
        let m : InMeta :=
          { asset := assetLbl, label := w.name ++ branch_label d.1 d.2,
            value := value, sighash := shName }
        let wa := add_spend wallets amounts (some w) value
        parse_psbt_inputs_pass store assets liquid default_asset rest wa.1 wa.2 (inMetas ++ [m]) unknowns1
      | none =>
        -- lines 714-720: unknown-wallet bucket
        let m : InMeta :=
          { asset := assetLbl, label := "Unknown wallet", value := value, sighash := shName }
        let wa := add_spend wallets amounts none value
        parse_psbt_inputs_pass store assets liquid default_asset rest wa.1 wa.2 (inMetas ++ [m]) unknowns1

/-- Lines 739-746: scan the matched wallets for a change owner of an output
(skipping `None`, gated on a truthy `out.blinding_pubkey`); first match wins. -/
def change_scan (outp : PsbtOut) : List (Option Wallet) → Option Wallet
  | [] => none
  | none :: rest => change_scan outp rest
  | some w :: rest =>
    if outp.blinding_pubkey ∧ w.owns outp.key then some w else change_scan outp rest

/-- Lines 728-746: the per-output pass (liquid asset labels, fee skip, change
detection).  Operates on outputs zipped with their initial metadata. -/
def parse_psbt_outputs_pass (liquid : Bool) (assets : List (List Nat × String))
    (wallets : List (Option Wallet)) :
    List (PsbtOut × OutMeta) → List (List Nat) → List OutMeta × List (List Nat)
  | [], unknowns => ([], unknowns)
  | (o, m) :: rest, unknowns =>
    -- lines 730-736: liquid asset label / unknown-asset collection
    let m1 := if liquid then
        match dict_get assets o.asset with
        | some lbl => { m with asset := some lbl }
        | none => m
      else m
    let unknowns1 :=
      if liquid ∧ dict_get assets o.asset = none ∧ ¬ unknowns.contains o.asset
      then unknowns ++ [o.asset] else unknowns
    -- line 737: skip the liquid fee output
    if liquid ∧ o.script_empty then
      let r := parse_psbt_outputs_pass liquid assets wallets rest unknowns1
      (m1 :: r.1, r.2)
    else
      let m2 := match change_scan o wallets with
        | some w => { m1 with change := true, label := some w.name }
        | none => m1
      let r := parse_psbt_outputs_pass liquid assets wallets rest unknowns1
      (m2 :: r.1, r.2)

/-- Line 748: `gaps = [[] + w.gaps if w is not None else [0, 0] for w in wallets]`. -/
def init_gaps (wallets : List (Option Wallet)) : List (List Nat) :=
  wallets.map (fun ow => match ow with | some w => w.gaps | none => [0, 0])

/-- Lines 756-761, one wallet: if the wallet owns the input, raise its gap
entry for the input's branch to `idx + GAP_LIMIT` when currently lower
(Python raises IndexError when the branch is outside the gaps list). -/
def gap_bump_one (inp : PsbtIn) (ow : Option Wallet) (g : List Nat) :
    Except PyError (List Nat) :=
  match ow with
  | none => .ok g
  | some w =>
    if w.owns inp.key then
      let d := w.get_derivation inp.key
      match g.get? d.1 with
      | none => .error .indexError
      | some cur => .ok (if cur < d.2 + w.gap_limit then g.set d.1 (d.2 + w.gap_limit) else g)
    else .ok g

/-- Lines 755-761: the inner `for i, w in enumerate(wallets)` loop, acting on
each wallet's gaps row independently. -/
def gap_bump_row (inp : PsbtIn) :
    List (Option Wallet) → List (List Nat) → Except PyError (List (List Nat))
  | [], _ => .ok []
  | _ :: _, [] => .ok []
  | ow :: ws, g :: gs =>
    match gap_bump_one inp ow g with
    | .error e => .error e
    | .ok g2 =>
      match gap_bump_row inp ws gs with
      | .error e => .error e
      | .ok gs2 => .ok (g2 :: gs2)

def compute_gaps_from (wallets : List (Option Wallet)) :
    List PsbtIn → List (List Nat) → Except PyError (List (List Nat))
  | [], gaps => .ok gaps
  | inp :: rest, gaps =>
    match gap_bump_row inp wallets gaps with
    | .error e => .error e
    | .ok gaps2 => compute_gaps_from wallets rest gaps2

/-- Lines 748-761: the effective gap bounds per (matched wallet, branch),
starting from the persisted bounds and raised by the transaction's inputs. -/
def compute_gaps (wallets : List (Option Wallet)) (inputs : List PsbtIn) :
    Except PyError (List (List Nat)) :=
  compute_gaps_from wallets inputs (init_gaps wallets)

/-- Lines 766-781, inner loop for one change output: scan the `enumerate`d
matched wallets (a `None` entry raises AttributeError: the code has no
`is None` guard here); on an owning wallet append the branch annotation to the
label (KeyError when the change pass never set one), then either emit the
gap-limit warning and break, or keep scanning. -/
def change_gap_scan (gaps : List (List Nat)) (outKey : Nat) :
    List (Nat × Option Wallet) → Option String →
    Except PyError (Option String × Option Warning)
  | [], lbl => .ok (lbl, none)
  | (j, ow) :: rest, lbl =>
    match ow with
    | none => .error (.attributeError "owns")
    | some w =>
      if w.owns outKey then
        match lbl with
        | none => .error .keyError
        | some s =>
          let d := w.get_derivation outKey
          let lbl2 := some (s ++ branch_label d.1 d.2)
          match (gaps.get? j).bind (fun g => g.get? d.1) with
          | none => .error .indexError
          | some gv =>
            if d.2 > gv then .ok (lbl2, some (.gapLimit d.2))
            else change_gap_scan gaps outKey rest lbl2
      else change_gap_scan gaps outKey rest lbl

/-- Lines 763-781: the gap-warning pass over all outputs (non-change outputs
are skipped); warnings are appended in output order. -/
def parse_psbt_gap_loop (wenum : List (Nat × Option Wallet)) (gaps : List (List Nat)) :
    List (PsbtOut × OutMeta) → Except PyError (List OutMeta × List Warning)
  | [] => .ok ([], [])
  | (o, m) :: rest =>
    if ¬ m.change then
      match parse_psbt_gap_loop wenum gaps rest with
      | .error e => .error e
      | .ok r => .ok (m :: r.1, r.2)
    else
      match change_gap_scan gaps o.key wenum m.label with
      | .error e => .error e
      | .ok lw =>
        match parse_psbt_gap_loop wenum gaps rest with
        | .error e => .error e
        | .ok r => .ok ({ m with label := lw.1 } :: r.1, lw.2.toList ++ r.2)

/-- Lines 647-783: `WalletManager.parse_psbt`.  `store` is `self.wallets`,
`assets` is `self.assets`, `liquid` is `is_liquid(self.network)`.  Returns the
spend summary (wallet-or-None, amount) and the display metadata, or the Python
error the code would raise. -/
def parse_psbt (store : List Wallet) (assets : List (List Nat × String))
    (liquid : Bool) (network : String) (psbt : Psbt) :
    Except PyError (List (Option Wallet × Nat) × PsbtMeta) :=
  -- lines 658-661
  let default_asset : Option String :=
    if liquid then none else some (if network = "main" then "BTC" else "tBTC")
  -- lines 663-678: initial output metadata
  let outMetas0 : List OutMeta := psbt.outputs.map (fun o =>
    { address := o.address, value := o.value, change := false,
      asset := default_asset, label := none })
  match parse_psbt_inputs_pass store assets liquid default_asset psbt.inputs [] [] [] [] with
  | .error e => .error e
  | .ok (wallets, amounts, inMetas, unknowns) =>
    -- lines 722-723
    let warnings0 : List Warning :=
      if wallets.contains none then [Warning.unknownWallet] else []
    -- lines 724-725: `warnings.append("Mixed inputs!")` references an
    -- undefined name `warnings` and raises NameError
    if wallets.length > 1 then .error (PyError.nameError "warnings")
    else
      let outs1 := parse_psbt_outputs_pass liquid assets wallets (psbt.outputs.zip outMetas0) unknowns
      match compute_gaps wallets psbt.inputs with
      | .error e => .error e
      | .ok gaps =>
        match parse_psbt_gap_loop wallets.enum gaps (psbt.outputs.zip outs1.1) with
        | .error e => .error e
        | .ok outsW =>
          .ok (wallets.zip amounts,
            { inputs := inMetas, outputs := outsW.1, fee := psbt.fee,
              warnings := warnings0 ++ outsW.2, unknown_assets := outs1.2 })

/-! ## Stream classification (`parse_stream`, lines 143-193) -/

/-- The request kinds (module constants SIGN_PSBT .. DUMP_ASSETS). -/
inductive HostCmd
  | signPsbt | addWallet | verifyAddress | deriveAddress | signBcur | addAsset | dumpAssets
deriving Repr, DecidableEq

def PSBT_MAGIC : List Nat := [0x70, 0x73, 0x62, 0x74, 0xff]   -- b"psbt\xff"
def PSET_MAGIC : List Nat := [0x70, 0x73, 0x65, 0x74, 0xff]   -- b"pset\xff"
def UR_BYTES_MAGIC : List Nat := [85, 82, 58, 66, 89, 84, 69, 83, 47]  -- b"UR:BYTES/"

/-- Base64 alphabet value of a byte, `none` for bytes outside the alphabet. -/
def b64val (c : Nat) : Option Nat :=
  if 65 ≤ c ∧ c ≤ 90 then some (c - 65)          -- A-Z
  else if 97 ≤ c ∧ c ≤ 122 then some (c - 97 + 26)  -- a-z
  else if 48 ≤ c ∧ c ≤ 57 then some (c - 48 + 52)   -- 0-9
  else if c = 43 then some 62                        -- +
  else if c = 47 then some 63                        -- /
  else none

/-- The base64 decoder the module calls (`binascii.a2b_base64` of the
MicroPython runtime, `extmod/modbinascii.c`): bytes outside the alphabet are
silently skipped, `=` terminates a properly padded group, and leftover bits at
the end raise ValueError (modelled as `none`).  CPython's decoder agrees on
every input used below. -/
def a2b_base64_loop : List Nat → Nat → Nat → Bool → List Nat → Option (List Nat)
  | [], _, nbits, _, out => if nbits ≠ 0 then none else some out.reverse
  | c :: rest, shift, nbits, hadpad, out =>
    if c = 61 then  -- '='
      if nbits = 2 ∨ (nbits = 4 ∧ hadpad) then some out.reverse
      else a2b_base64_loop rest shift nbits true out
    else
      match b64val c with
      | none => a2b_base64_loop rest shift nbits hadpad out
      | some v =>
        let shift2 := shift * 64 + v
        let nbits2 := nbits + 6
        if nbits2 ≥ 8 then
          a2b_base64_loop rest shift2 (nbits2 - 8) hadpad ((shift2 / 2 ^ (nbits2 - 8) % 256) :: out)
        else a2b_base64_loop rest shift2 nbits2 hadpad out

def a2b_base64 (data : List Nat) : Option (List Nat) :=
  a2b_base64_loop data 0 0 false []

def bytes_starts_with (l p : List Nat) : Bool := l.take p.length == p

/-- `sub in l` for byte strings. -/
def bytes_contains (sub : List Nat) : List Nat → Bool
  | [] => sub == []
  | c :: rest => bytes_starts_with (c :: rest) sub || bytes_contains sub rest

def bSign : List Nat := [115, 105, 103, 110]                          -- b"sign"
def bShowaddr : List Nat := [115, 104, 111, 119, 97, 100, 100, 114]   -- b"showaddr"
def bAddwallet : List Nat := [97, 100, 100, 119, 97, 108, 108, 101, 116]
def bAddasset : List Nat := [97, 100, 100, 97, 115, 115, 101, 116]
def bDumpassets : List Nat := [100, 117, 109, 112, 97, 115, 115, 101, 116, 115]
def bBitcoinLower : List Nat := [98, 105, 116, 99, 111, 105, 110, 58] -- b"bitcoin:"
def bBitcoinUpper : List Nat := [66, 73, 84, 67, 79, 73, 78, 58]      -- b"BITCOIN:"
def bIndexEq : List Nat := [105, 110, 100, 101, 120, 61]              -- b"index="

/-- Lines 163-193: the prefix-less heuristics of `parse_stream`.  `data` is
the first `stream.read(40)` bytes; the returned `Nat` is the stream position
the code seeks to (0 = rewound to the start, 8 = just past `bitcoin:`). -/
def parse_stream_heuristics (data : List Nat) : Option (HostCmd × Nat) :=
  if data.take 9 = UR_BYTES_MAGIC then some (.signBcur, 0)
  else
    match a2b_base64 data with
    | some psbt =>
      -- a successful decode with a wrong magic returns (None, None) at line 174
      if psbt.take PSBT_MAGIC.length = PSBT_MAGIC ∨ psbt.take PSET_MAGIC.length = PSET_MAGIC
      then some (.signPsbt, 0) else none
    | none =>
      -- the except around a2b_base64 falls through to the descriptor heuristic
      if data.contains 38 ∧ ¬ data.contains 63 then some (.addWallet, 0)    -- '&' / '?'
      else if bytes_starts_with data bBitcoinLower ∨ bytes_starts_with data bBitcoinUpper then
        some (.verifyAddress, 8)
      else if bytes_contains bIndexEq data then some (.verifyAddress, 0)
      else none

/-- Lines 147-193: `WalletManager.parse_stream`.  `pfx` is the result of
`self.get_prefix(stream)` (a base-class helper outside this module); when a
prefix was consumed the stream stays at `pfxPos`, the position right after it. -/
def parse_stream (liquid : Bool) (pfx : Option (List Nat)) (pfxPos : Nat)
    (data : List Nat) : Option (HostCmd × Nat) :=
  match pfx with
  | some p =>
    if p = bSign then some (.signPsbt, pfxPos)
    else if p = bShowaddr then some (.deriveAddress, pfxPos)
    else if p = bAddwallet then some (.addWallet, pfxPos)
    else if liquid ∧ p = bAddasset then some (.addAsset, pfxPos)
    else if liquid ∧ p = bDumpassets then some (.dumpAssets, pfxPos)
    else none
  | none => parse_stream_heuristics data

/-! ## `sign_psbt`: decode error handling (lines 297-313) -/

/-- An exception raised by `PSBTClass.read_from`; `msg` is `e.args[0]`. -/
structure DecodeException where
  msg : String
deriving Repr, DecidableEq

inductive SignPsbtError
  /-- "Wrong transaction type! Switch to %s network to sign PSBT!" -/
  | wrongNetwork (switchTo : String)
  /-- any other decode exception, re-raised unchanged -/
  | reraised (e : DecodeException)
  /-- "We didn't add any signatures!  Maybe you forgot to import the wallet? ..." -/
  | noSignaturesAdded
deriving Repr, DecidableEq

/-- Lines 297-313: wrap the container decode.  A decode failure whose message
is "Invalid PSBT magic" becomes the network-mismatch WalletError naming the
other network family; any other failure propagates unchanged. -/
def sign_psbt_decode (liquid : Bool) (decoded : Except DecodeException Psbt) :
    Except SignPsbtError Psbt :=
  match decoded with
  | .ok p => .ok p
  | .error e =>
    if e.msg = "Invalid PSBT magic" then
      .error (.wrongNetwork (if liquid then "Bitcoin" else "Liquid"))
    else .error (.reraised e)

/-- The full mismatch message of line 311. -/
def wrong_network_message (switchTo : String) : String :=
  "Wrong transaction type! Switch to " ++ switchTo ++ " network to sign PSBT!"

/-! ## `sign_psbt`: sighash policy (lines 292-336) -/

/-- Line 295: the default signing mode (rangeproofs are signed as well on
liquid, to verify addresses). -/
def default_sighash (liquid : Bool) : Nat :=
  if liquid then SIGHASH_ALL ||| SIGHASH_RANGEPROOF else SIGHASH_ALL

/-- Lines 316-321: collect `(i, inp.sighash_type)` for every input whose
declared sighash is truthy and differs from the default signing mode. -/
def collect_custom_sighashes (inputs : List PsbtIn) (sighash : Nat) : List (Nat × Nat) :=
  inputs.enum.filterMap (fun p =>
    match p.2.sighash_type with
    | some st => if st ≠ 0 ∧ st ≠ sighash then some (p.1, st) else none
    | none => none)

/-! ## `sign_psbt`: confidential finalization (lines 383-420) -/

/-- `compact.to_bytes`: Bitcoin varint length prefix. -/
def nat_le_bytes : Nat → Nat → List Nat
  | 0, _ => []
  | k + 1, n => n % 256 :: nat_le_bytes k (n / 256)

def compact_to_bytes (n : Nat) : List Nat :=
  if n < 0xfd then [n]
  else if n < 0x10000 then 0xfd :: nat_le_bytes 2 n
  else if n < 0x100000000 then 0xfe :: nat_le_bytes 4 n
  else 0xff :: nat_le_bytes 8 n

/-- A PSET output scope together with the `psbt.tx.vout[i]` fields the
finalization loop reads. -/
structure PsetOut where
  /-- `b"\xfc\x07specter\x01" in out.unknown` -/
  has_specter_nonce : Bool
  /-- `out.unknown[b"\xfc\x07specter\x01"]` (meaningful only when present) -/
  nonce : List Nat
  /-- `out.nonce_commitment` (None modelled as `none`) -/
  nonce_commitment : Option (List Nat)
  /-- `out.blinding_pubkey` bytes -/
  blinding_pubkey : List Nat
  value_commitment : List Nat
  value_blinding_factor : List Nat
  asset_blinding_factor : List Nat
  asset_commitment : List Nat
  surjection_proof : List Nat
  /-- `out.range_proof`; `[]` models an absent (falsy) proof -/
  range_proof : List Nat
  /-- `psbt.tx.vout[i].value` -/
  vout_value : Nat
  /-- `psbt.tx.vout[i].asset` -/
  vout_asset : List Nat
  /-- `psbt.tx.vout[i].script_pubkey.data` -/
  vout_script : List Nat
deriving Repr, DecidableEq

/-- The external secp256k1/hash primitives the finalization loop calls;
they are opaque to this module and passed in as functions. -/
structure SecpOps where
  /-- `ec.PrivateKey(nonce).sec()` -/
  privkey_sec : List Nat → List Nat
  /-- `ec_pubkey_serialize(ec_pubkey_tweak_mul(ec_pubkey_parse(bpub), nonce))` -/
  ecdh_mul_serialize : List Nat → List Nat → List Nat
  sha256 : List Nat → List Nat
  /-- `secp256k1.rangeproof_sign(ecdh_nonce, value, value_commitment, vbf, message, script, asset_commitment)` -/
  rangeproof_sign : List Nat → Nat → List Nat → List Nat → List Nat → List Nat → List Nat → List Nat

/-- A SecpOps instance with trivially computable members, used to evaluate the
loop on outputs that never reach the cryptographic calls. -/
def trivialSecp : SecpOps :=
  { privkey_sec := fun _ => [], ecdh_mul_serialize := fun _ _ => [],
    sha256 := fun _ => [], rangeproof_sign := fun _ _ _ _ _ _ _ => [] }

/-- Lines 387-419, one output.  State is the running digest byte stream `h`
and the loop-local variable `proof` (`none` when unbound: it is never assigned
before the first nonce-carrying output and is `del`eted at the end of each
one, so reading it at line 392 raises NameError). -/
def rangeproof_step (ops : SecpOps) (st : List Nat × Option (List Nat)) (out : PsetOut) :
    Except PyError ((List Nat × Option (List Nat)) × PsetOut) :=
  let h := st.1
  let proofVar := st.2
  if ¬ out.has_specter_nonce then
    -- lines 390-398: output treated as already finalized
    if out.range_proof ≠ [] then
      -- lines 392-395 hash the variable `proof`, not `out.range_proof`
      match proofVar with
      | none => .error (.nameError "proof")
      | some proof =>
        .ok ((h ++ compact_to_bytes proof.length ++ proof
                ++ compact_to_bytes out.surjection_proof.length ++ out.surjection_proof,
              proofVar), out)
    else
      .ok ((h ++ [0, 0], proofVar), out)
  else
    -- lines 399-403: derive or verify the nonce commitment
    let commitment : Except PyError PsetOut :=
      match out.nonce_commitment with
      | some nc => if nc = ops.privkey_sec out.nonce then .ok out else .error .assertionError
      | none => .ok { out with nonce_commitment := some (ops.privkey_sec out.nonce) }
    match commitment with
    | .error e => .error e
    | .ok out2 =>
      -- lines 404-407: ECDH shared secret, double-hashed proof nonce
      let sec := ops.ecdh_mul_serialize out2.blinding_pubkey out2.nonce
      let ecdh_nonce := ops.sha256 (ops.sha256 sec)
      -- lines 408-412: regenerate the range proof
      let proof := ops.rangeproof_sign ecdh_nonce out2.vout_value out2.value_commitment
        out2.value_blinding_factor (out2.vout_asset.drop 1 ++ out2.asset_blinding_factor)
        out2.vout_script out2.asset_commitment
      -- lines 413-419: fold both proofs, drop the scratch state (del proof)
      .ok ((h ++ compact_to_bytes proof.length ++ proof
              ++ compact_to_bytes out2.surjection_proof.length ++ out2.surjection_proof,
            none),
           { out2 with surjection_proof := [] })

/-- Lines 384-420: the whole finalization pass; returns the accumulated digest
byte stream (hashed into `psbt.tx._hash_outputs_rangeproofs`) and the mutated
outputs. -/
def rangeproof_pass (ops : SecpOps) :
    List PsetOut → List Nat × Option (List Nat) → Except PyError (List Nat × List PsetOut)
  | [], st => .ok (st.1, [])
  | out :: rest, st =>
    match rangeproof_step ops st out with
    | .error e => .error e
    | .ok r =>
      match rangeproof_pass ops rest r.1 with
      | .error e => .error e
      | .ok tail => .ok (tail.1, r.2 :: tail.2)

/-! ## `sign_psbt`: signature accounting (lines 422-453) -/

/-- An input's partial-signature map (`inp.partial_sigs`), keyed by pubkey. -/
structure SigInput where
  partial_sigs : List (Nat × List Nat)
deriving Repr, DecidableEq

/-- `sum(len(list(inp.partial_sigs.keys())) for inp in inputs)`. -/
def total_partial_sigs (inputs : List SigInput) : Nat :=
  (inputs.map (fun i => i.partial_sigs.length)).sum

/-- Lines 423-447: count the partial signatures before the wallet/keystore
signing calls (`sigsStart`), count them after (`sigsEnd`, while copying each
input's partial sigs into the stripped `out_psbt`), and fail with the
"We didn't add any signatures!" WalletError when the count is unchanged;
otherwise the stripped structure is serialized and returned. -/
def sign_psbt_accounting (before after : List SigInput) :
    Except SignPsbtError (List SigInput) :=
  let sigsStart := total_partial_sigs before
  let sigsEnd := total_partial_sigs after
  if sigsEnd = sigsStart then .error .noSignaturesAdded
  else .ok after

/-! ## Asset registry (lines 276-288, 455-476) -/

def hex_digit_val (c : Char) : Option Nat :=
  if 48 ≤ c.toNat ∧ c.toNat ≤ 57 then some (c.toNat - 48)        -- 0-9
  else if 97 ≤ c.toNat ∧ c.toNat ≤ 102 then some (c.toNat - 87)  -- a-f
  else if 65 ≤ c.toNat ∧ c.toNat ≤ 70 then some (c.toNat - 55)   -- A-F
  else none

/-- `binascii.unhexlify`: case-insensitive, fails on odd length or a bad digit. -/
def unhexlify_chars : List Char → Option (List Nat)
  | [] => some []
  | [_] => none
  | c1 :: c2 :: rest =>
    match hex_digit_val c1, hex_digit_val c2, unhexlify_chars rest with
    | some hi, some lo, some tail => some ((16 * hi + lo) :: tail)
    | _, _, _ => none

def unhexlify (s : String) : Option (List Nat) := unhexlify_chars s.data

/-- `binascii.hexlify(...).decode()`: always lowercase. -/
def hex_char (n : Nat) : Char :=
  if n < 10 then Char.ofNat (48 + n) else Char.ofNat (87 + n)

def hex_chars (b : List Nat) : List Char :=
  b.foldr (fun x acc => hex_char (x % 256 / 16) :: hex_char (x % 16) :: acc) []

def hexlify (b : List Nat) : String := String.mk (hex_chars b)

/-- Lines 280-285 (ADD_ASSET): `asset = bytes(reversed(unhexlify(hexasset)));
self.assets[asset] = assetlbl`.  `none` when unhexlify raises. -/
def add_asset (assets : List (List Nat × String)) (hexasset lbl : String) :
    Option (List (List Nat × String)) :=
  (unhexlify hexasset).map (fun b => dict_set assets b.reverse lbl)

/-- Lines 455-460 (`assets_json`): the JSON object dumped by DUMP_ASSETS, as
its ordered key/value pairs — each internal 32-byte key is re-reversed and
lowercase-hexlified. -/
def assets_json (assets : List (List Nat × String)) : List (String × String) :=
  assets.map (fun p => (hexlify p.1.reverse, p.2))

/-- Line 463 (`save_assets`): the storage path written to. -/
def save_assets_path (root_path uid network : String) : String :=
  root_path ++ "/uid" ++ uid ++ "/" ++ network

/-- Lines 469-471 (`load_assets`): the storage path read from. -/
def load_assets_path (root_path uid network : String) : String :=
  root_path ++ "/" ++ uid ++ "/" ++ network

/-! ## Pure companions used to characterise the gap computation -/

/-- The update a single owned input makes to one wallet's gaps row
(total companion of `gap_bump_one`, valid when branches are in range). -/
def gap_bump_pure (w : Wallet) (inp : PsbtIn) (g : List Nat) : List Nat :=
  if w.owns inp.key then
    if g.getD (w.get_derivation inp.key).1 0 < (w.get_derivation inp.key).2 + w.gap_limit then
      g.set (w.get_derivation inp.key).1 ((w.get_derivation inp.key).2 + w.gap_limit)
    else g
  else g

/-- Total companion of `gap_bump_row`. -/
def gap_bump_row_pure (inp : PsbtIn) :
    List (Option Wallet) → List (List Nat) → List (List Nat)
  | [], _ => []
  | _ :: _, [] => []
  | ow :: ws, g :: gs =>
    (match ow with | none => g | some w => gap_bump_pure w inp g) :: gap_bump_row_pure inp ws gs

/-- Following the spec's words: the input-driven bound for a (wallet, branch),
`max input index seen on that branch + the wallet's gap limit` (0 when no
input of the transaction is owned on that branch). -/
def input_gap_bound (w : Wallet) (b : Nat) : List PsbtIn → Nat
  | [] => 0
  | inp :: rest =>
    if w.owns inp.key ∧ (w.get_derivation inp.key).1 = b then
      max ((w.get_derivation inp.key).2 + w.gap_limit) (input_gap_bound w b rest)
    else input_gap_bound w b rest

/-! ## Concrete instances used by witnesses and counterexamples -/

def exW1 : Wallet := { name := "W1", gaps := [0, 0], gap_limit := 20, derivations := [(1, 0, 0)] }
def exW2 : Wallet := { name := "W2", gaps := [0, 0], gap_limit := 20, derivations := [(2, 0, 0)] }
def exW3 : Wallet :=
  { name := "W", gaps := [2, 2], gap_limit := 20,
    derivations := [(10, 1, 0), (20, 1, 100), (21, 1, 101)] }

def exIn (k : Nat) : PsbtIn :=
  { key := k, utxo_value := 1000, inp_value := 0, asset := [], sighash_type := none }

/-- Two inputs owned by two distinct known wallets. -/
def exPsbt5 : Psbt := { inputs := [exIn 1, exIn 2], outputs := [], fee := 10 }

def exIn3 : PsbtIn :=
  { key := 10, utxo_value := 0, inp_value := 5000, asset := [170], sighash_type := none }
def exOut3 (k v : Nat) (a : String) : PsbtOut :=
  { key := k, value := v, script_empty := false, blinding_pubkey := true,
    asset := [170], address := a }
/-- One owned input on the change branch and two change outputs whose indices
(100 and 101) are far beyond the effective gap bound. -/
def exPsbt3 : Psbt :=
  { inputs := [exIn3], outputs := [exOut3 20 1000 "a1", exOut3 21 2000 "a2"], fee := 100 }
def exAssets3 : List (List Nat × String) := [([170], "tBTC")]

/-- A confidential output with no device-nonce field and a nonempty range
proof (the "already finalized, proof present" case of the claim). -/
def exOutProof : PsetOut :=
  { has_specter_nonce := false, nonce := [], nonce_commitment := none,
    blinding_pubkey := [], value_commitment := [], value_blinding_factor := [],
    asset_blinding_factor := [], asset_commitment := [], surjection_proof := [8, 9],
    range_proof := [7], vout_value := 0, vout_asset := [], vout_script := [] }

/-- Same, but with no range proof (the two-zero-bytes case). -/
def exOutNoProof : PsetOut := { exOutProof with range_proof := [], surjection_proof := [] }

/-- An input with a declared sighash of 0. -/
def exIn6 : PsbtIn :=
  { key := 0, utxo_value := 0, inp_value := 0, asset := [], sighash_type := some 0 }

/-- b"AAAA&": contains the field separator, no query marker, yet decodes as
base64 (the decoder skips the separator) to bytes without a container magic. -/
def exData8 : List Nat := [65, 65, 65, 65, 38]

/-- b"abcde&(": five base64-alphabet bytes leave the decoder with leftover
bits, so the decode raises and the separator heuristic is reached. -/
def exData8w : List Nat := [97, 98, 99, 100, 101, 38, 40]

/-- "A" repeated 64 times: a 32-byte asset id written in uppercase hex. -/
def exHexUpper : String := String.mk (List.replicate 64 (Char.ofNat 65))
def exHexLower : String := String.mk (List.replicate 64 (Char.ofNat 97))

def exC1before : List SigInput := [{ partial_sigs := [] }]
def exC1after : List SigInput := [{ partial_sigs := [(5, [48, 49])] }]

/-- Well-formedness of one (wallet slot, gaps row) pair: every branch the
wallet can derive is covered by the row (true of real wallets, whose `gaps`
list has one entry per descriptor branch). -/
def gaps_wf (ow : Option Wallet) (g : List Nat) : Prop :=
  ∀ w ∈ ow.toList, ∀ e ∈ w.derivations, e.2.1 < g.length

/-- The spend summary `parse_psbt` returns on `exPsbt3`. -/
def exC3ws : List (Option Wallet × Nat) := [(some exW3, 5000)]

/-- The metadata `parse_psbt` returns on `exPsbt3`: two change outputs beyond
the effective gap bound, two gap-limit warnings. -/
def exC3meta : PsbtMeta :=
  { inputs := [{ asset := some "tBTC", label := "W change 0", value := 5000, sighash := "ALL" }],
    outputs := [
      { address := "a1", value := 1000, change := true, asset := some "tBTC",
        label := some "W change 100" },
      { address := "a2", value := 2000, change := true, asset := some "tBTC",
        label := some "W change 101" }],
    fee := 100,
    warnings := [Warning.gapLimit 100, Warning.gapLimit 101],
    unknown_assets := [] }

/-! # Theorems -/

/-! ## Helper lemmas -/

theorem total_le_of_forall2 (l1 l2 : List SigInput)
    (h : List.Forall₂ (fun a b : SigInput => a.partial_sigs.length ≤ b.partial_sigs.length) l1 l2) :
    total_partial_sigs l1 ≤ total_partial_sigs l2 := by
  induction h with
  | nil => simp [total_partial_sigs]
  | cons hab _ ih =>
    simp only [total_partial_sigs, List.map_cons, List.sum_cons] at ih ⊢
    omega

theorem total_lt_of_forall2 (l1 l2 : List SigInput)
    (h : List.Forall₂ (fun a b : SigInput => a.partial_sigs.length ≤ b.partial_sigs.length) l1 l2)
    (hlt : ∃ i a b, l1.get? i = some a ∧ l2.get? i = some b ∧
      a.partial_sigs.length < b.partial_sigs.length) :
    total_partial_sigs l1 < total_partial_sigs l2 := by
  induction h with
  | nil =>
    obtain ⟨i, a, b, ha, _⟩ := hlt
    simp at ha
  | @cons x y l1t l2t hab htail ih =>
    obtain ⟨i, a, b, ha, hb, hlt2⟩ := hlt
    simp only [total_partial_sigs, List.map_cons, List.sum_cons]
    match i with
    | 0 =>
      simp only [List.get?_cons_zero, Option.some.injEq] at ha hb
      subst ha; subst hb
      have := total_le_of_forall2 l1t l2t htail
      simp only [total_partial_sigs] at this
      omega
    | Nat.succ j =>
      simp only [List.get?_cons_succ] at ha hb
      have := ih ⟨j, a, b, ha, hb, hlt2⟩
      simp only [total_partial_sigs] at this
      omega

/-! ## C1 -/

/-- Claim C1 (confirmed): in `sign_psbt`, when the total number of partial
signatures across all inputs after the wallet and keystore signing calls
equals the count recorded before signing, the pipeline fails with the
NoSignaturesAdded error; when the count strictly increased for at least one
input (signing only ever adds signatures), a serialized result is returned. -/
theorem C1_sign_psbt_signature_accounting (before after : List SigInput)
    (hmono : List.Forall₂ (fun a b : SigInput => a.partial_sigs.length ≤ b.partial_sigs.length)
      before after) :
    (total_partial_sigs after = total_partial_sigs before →
      sign_psbt_accounting before after = .error .noSignaturesAdded)
    ∧ ((∃ i a b, before.get? i = some a ∧ after.get? i = some b ∧
          a.partial_sigs.length < b.partial_sigs.length) →
        sign_psbt_accounting before after = .ok after) := by
  constructor
  · intro h
    simp [sign_psbt_accounting, h]
  · intro h
    have hlt := total_lt_of_forall2 before after hmono h
    simp only [sign_psbt_accounting]
    rw [if_neg (by omega)]

/-- Witness for C1 at a concrete one-input request: one signature added gives
a result, none added gives the NoSignaturesAdded error. -/
theorem C1_witness :
    sign_psbt_accounting exC1before exC1after = .ok exC1after ∧
    sign_psbt_accounting exC1before exC1before = .error .noSignaturesAdded := by
  constructor
  · exact (C1_sign_psbt_signature_accounting exC1before exC1after
      (List.Forall₂.cons (by decide) List.Forall₂.nil)).2
      ⟨0, _, _, rfl, rfl, by decide⟩
  · exact (C1_sign_psbt_signature_accounting exC1before exC1before
      (List.Forall₂.cons (by decide) List.Forall₂.nil)).1 rfl

/-! ## C2 -/

/-- Claim C2 (code bug): for an output with no device-nonce field, the code is
meant to fold the output's own length-prefixed range proof and surjection
proof into the digest, but lines 392-393 hash the loop variable `proof`
(unassigned on this path, and deleted after every nonce-carrying output), so
the pass raises NameError whenever such an output has a nonempty range proof;
the two-zero-bytes branch for an absent proof behaves as claimed. -/
theorem C2_rangeproof_digest_nameError :
    rangeproof_pass trivialSecp [exOutProof] ([], none) = .error (.nameError "proof")
    ∧ rangeproof_pass trivialSecp [exOutNoProof] ([], none) = .ok ([0, 0], [exOutNoProof]) := by
  exact ⟨rfl, rfl⟩

/-! ## C5 -/

/-- Claim C5 (code bug): on a transaction whose inputs resolve to two distinct
known wallets, `parse_psbt` does not append a mixed-inputs warning and return
normally — line 725 appends to an undefined name `warnings` and the function
raises NameError. -/
theorem C5_mixed_inputs_nameError :
    parse_psbt [exW1, exW2] [] false "test" exPsbt5 = .error (.nameError "warnings") := by
  rfl

/-! ## C6 -/

/-- Counterexample to claim C6 as stated: an input with a declared sighash of
0 differs from the default signing mode (ALL = 1) and yet is not collected
into the custom-sighash set, because `if inp.sighash_type` treats 0 as falsy. -/
theorem C6_counterexample :
    collect_custom_sighashes [exIn6] (default_sighash false) = []
    ∧ exIn6.sighash_type = some 0
    ∧ (0 : Nat) ≠ default_sighash false := by
  decide

/-- Claim C6 (corrected): an input is collected into the custom-sighash set
exactly when its declared sighash is nonzero and differs from the default
signing mode — ALL on plain networks, ALL ORed with the rangeproof flag on
confidential networks; inputs with no declared sighash (or a declared 0,
which Python's truthiness test treats like an absent one) are not custom. -/
theorem C6_custom_sighash_membership (inputs : List PsbtIn) (liquid : Bool) (i s : Nat) :
    (i, s) ∈ collect_custom_sighashes inputs (default_sighash liquid) ↔
      ∃ inp, inputs.get? i = some inp ∧ inp.sighash_type = some s ∧ s ≠ 0
        ∧ s ≠ default_sighash liquid := by
  simp only [collect_custom_sighashes, List.mem_filterMap]
  constructor
  · rintro ⟨⟨j, inp⟩, hmem, hf⟩
    have hj : inputs.get? j = some inp := by
      rw [List.get?_eq_getElem?]
      exact List.mk_mem_enum_iff_getElem?.mp hmem
    match hst : inp.sighash_type with
    | none => simp [hst] at hf
    | some st =>
      simp only [hst] at hf
      by_cases hc : st ≠ 0 ∧ st ≠ default_sighash liquid
      · rw [if_pos hc, Option.some.injEq, Prod.mk.injEq] at hf
        obtain ⟨rfl, rfl⟩ := hf
        exact ⟨inp, hj, hst, hc.1, hc.2⟩
      · rw [if_neg hc] at hf
        cases hf
  · rintro ⟨inp, hget, hst, h0, hd⟩
    refine ⟨(i, inp), ?_, ?_⟩
    · exact List.mk_mem_enum_iff_getElem?.mpr (by rw [← List.get?_eq_getElem?]; exact hget)
    · simp [hst, h0, hd]

/-! ## C7 -/

/-- Claim C7 (confirmed): a container decode failure whose cause is the wrong
magic ("Invalid PSBT magic") is reported as the network-mismatch error naming
the other network family (Bitcoin when the active network is confidential,
Liquid otherwise); any decode failure with a different cause propagates
unchanged. -/
theorem C7_decode_error_mapping (liquid : Bool) (e : DecodeException) :
    (e.msg = "Invalid PSBT magic" →
      sign_psbt_decode liquid (.error e) =
        .error (.wrongNetwork (if liquid then "Bitcoin" else "Liquid")))
    ∧ (e.msg ≠ "Invalid PSBT magic" →
      sign_psbt_decode liquid (.error e) = .error (.reraised e)) := by
  constructor
  · intro h
    simp [sign_psbt_decode, h]
  · intro h
    simp [sign_psbt_decode, h]

/-- Witness for C7: a wrong-magic failure on the confidential network points
the user to Bitcoin; a failure with another message is re-raised as is. -/
theorem C7_witness :
    sign_psbt_decode true (.error { msg := "Invalid PSBT magic" }) =
      .error (.wrongNetwork "Bitcoin")
    ∧ sign_psbt_decode false (.error { msg := "bad checksum" }) =
      .error (.reraised { msg := "bad checksum" }) := by
  constructor
  · exact (C7_decode_error_mapping true { msg := "Invalid PSBT magic" }).1 rfl
  · exact (C7_decode_error_mapping false { msg := "bad checksum" }).2 (by decide)

/-! ## C8 -/

/-- Counterexample to claim C8 as stated: b"AAAA&" has no envelope magic, does
not base64-decode to a recognized container magic, and contains the field
separator but no query marker — yet `parse_stream` classifies it as
unrecognized, not AddWallet: the base64 decoder skips the separator byte,
decodes successfully, and the wrong-magic check returns (None, None) before
the separator heuristic is reached. -/
theorem C8_counterexample :
    parse_stream false none 0 exData8 = none
    ∧ exData8.contains 38 = true ∧ exData8.contains 63 = false
    ∧ exData8.take 9 ≠ UR_BYTES_MAGIC
    ∧ a2b_base64 exData8 = some [0, 0, 0]
    ∧ [0, 0, 0].take PSBT_MAGIC.length ≠ PSBT_MAGIC
    ∧ [0, 0, 0].take PSET_MAGIC.length ≠ PSET_MAGIC := by
  decide

/-- Claim C8 (corrected): for a stream without a recognized command prefix
whose leading bytes are not the streaming-envelope magic and are REJECTED by
the base64 decoder (the decoder ignores non-alphabet bytes, so a decode can
succeed despite the separator; a successful decode with a wrong magic
classifies the stream as unrecognized instead), the presence of the field
separator without a query marker classifies the stream as AddWallet, rewound
to the start. -/
theorem C8_addwallet_heuristic (liquid : Bool) (pfxPos : Nat) (data : List Nat)
    (hUR : data.take 9 ≠ UR_BYTES_MAGIC)
    (hB64 : a2b_base64 data = none)
    (hAmp : data.contains 38 = true)
    (hQ : data.contains 63 = false) :
    parse_stream liquid none pfxPos data = some (.addWallet, 0) := by
  simp only [parse_stream, parse_stream_heuristics, hB64, if_neg hUR]
  rw [if_pos]
  constructor
  · exact hAmp
  · rw [hQ]
    exact Bool.false_ne_true

/-- Witness for C8 on b"abcde&(": the base64 decode fails (five alphabet
bytes leave leftover bits), so the separator heuristic classifies AddWallet. -/
theorem C8_witness : parse_stream false none 0 exData8w = some (.addWallet, 0) :=
  C8_addwallet_heuristic false 0 exData8w (by decide) (by decide) (by decide) (by decide)

/-! ## C10 -/

/-- Claim C10 (code bug): `save_assets` writes under `root/uid<uid>/<network>`
while `load_assets` reads `root/<uid>/<network>` — the two storage paths are
never equal, so labels persisted by `save_assets` are never restored by
`load_assets`. -/
theorem C10_asset_paths_differ (root_path uid network : String) :
    save_assets_path root_path uid network ≠ load_assets_path root_path uid network := by
  intro h
  have hlen := congrArg String.length h
  simp only [save_assets_path, load_assets_path, String.length_append] at hlen
  have h4 : ("/uid" : String).length = 4 := rfl
  have h1 : ("/" : String).length = 1 := rfl
  omega

/-! ## C3 counterexample -/

/-- Counterexample to claim C3 as stated: a transaction with two change
outputs whose derived indices (100 and 101) both exceed the effective gap
bound makes `parse_psbt` append two gap-limit warnings — the `break` at line
781 only leaves the inner wallet scan, not the loop over outputs. -/
theorem C3_counterexample :
    Except.map (fun r => r.2.warnings) (parse_psbt [exW3] exAssets3 true "liquidv1" exPsbt3)
      = .ok [Warning.gapLimit 100, Warning.gapLimit 101]
    ∧ Except.map (fun r => r.2.warnings.countP Warning.isGap)
        (parse_psbt [exW3] exAssets3 true "liquidv1" exPsbt3) = .ok 2 := by
  exact ⟨rfl, rfl⟩

/-- Each output contributes at most one gap warning: the warnings emitted by
`parse_psbt_gap_loop` are bounded by the number of change outputs. -/
theorem gap_loop_warning_bound (wenum : List (Nat × Option Wallet)) (gaps : List (List Nat))
    (L : List (PsbtOut × OutMeta)) :
    ∀ ms warns, parse_psbt_gap_loop wenum gaps L = .ok (ms, warns) →
      warns.countP Warning.isGap ≤ ms.countP (fun m => m.change) := by
  induction L with
  | nil =>
    intro ms warns h
    simp only [parse_psbt_gap_loop, Except.ok.injEq, Prod.mk.injEq] at h
    obtain ⟨rfl, rfl⟩ := h
    simp
  | cons p rest ih =>
    obtain ⟨o, m⟩ := p
    intro ms warns h
    simp only [parse_psbt_gap_loop] at h
    by_cases hc : m.change = true
    · rw [if_neg (by simp [hc])] at h
      cases hscan : change_gap_scan gaps o.key wenum m.label with
      | error e => rw [hscan] at h; cases h
      | ok lw =>
        rw [hscan] at h
        cases hrec : parse_psbt_gap_loop wenum gaps rest with
        | error e => rw [hrec] at h; cases h
        | ok r =>
          rw [hrec, Except.ok.injEq, Prod.mk.injEq] at h
          obtain ⟨rfl, rfl⟩ := h
          have hih := ih r.1 r.2 hrec
          have hone : (Option.toList lw.2).countP Warning.isGap ≤ 1 :=
            le_trans (List.countP_le_length _) (by cases lw.2 <;> simp)
          simp only [List.countP_append, List.countP_cons, hc, if_true]
          omega
    · rw [if_pos (by simp [hc])] at h
      cases hrec : parse_psbt_gap_loop wenum gaps rest with
      | error e => rw [hrec] at h; cases h
      | ok r =>
        rw [hrec, Except.ok.injEq, Prod.mk.injEq] at h
        obtain ⟨rfl, rfl⟩ := h
        have hih := ih r.1 r.2 hrec
        simp only [List.countP_cons, hc]
        omega

/-- Claim C3 (corrected): `parse_psbt` appends at most one gap-limit warning
per change output — the `break` only ends the wallet scan for that output, so
the number of gap warnings is bounded by the number of change outputs (not by
one per transaction, as the claim states). -/
theorem C3_gap_warning_per_change_output (store : List Wallet)
    (assets : List (List Nat × String)) (liquid : Bool) (network : String)
    (psbt : Psbt) (ws : List (Option Wallet × Nat)) (meta : PsbtMeta)
    (h : parse_psbt store assets liquid network psbt = .ok (ws, meta)) :
    meta.warnings.countP Warning.isGap ≤ meta.outputs.countP (fun m => m.change) := by
  simp only [parse_psbt] at h
  split at h
  · exact Except.noConfusion h
  · split at h
    · exact Except.noConfusion h
    · split at h
      · exact Except.noConfusion h
      · split at h
        · exact Except.noConfusion h
        · rename_i x2 wallets amounts inMetas unknowns hpass hlen x1 gaps hgaps x0 outsW hloop
          rw [Except.ok.injEq, Prod.mk.injEq] at h
          obtain ⟨h1, rfl⟩ := h
          have hb := gap_loop_warning_bound wallets.enum gaps _ outsW.1 outsW.2 hloop
          dsimp only
          simp only [List.countP_append]
          have h0 : (if wallets.contains none then [Warning.unknownWallet] else []).countP
              Warning.isGap = 0 := by
            split <;> simp [Warning.isGap]
          omega

/-- Witness for C3 on the concrete two-change-output transaction: its two gap
warnings are indeed bounded by its two change outputs. -/
theorem C3_witness :
    exC3meta.warnings.countP Warning.isGap ≤ exC3meta.outputs.countP (fun m => m.change) :=
  C3_gap_warning_per_change_output [exW3] exAssets3 true "liquidv1" exPsbt3 exC3ws exC3meta
    (by rfl)

/-! ## C4: effective gap bounds -/

theorem owns_branch_lt (w : Wallet) (k n : Nat)
    (hwf : ∀ e ∈ w.derivations, e.2.1 < n) (h : w.owns k = true) :
    (w.get_derivation k).1 < n := by
  unfold Wallet.owns at h
  obtain ⟨e, he⟩ := Option.isSome_iff_exists.mp h
  unfold Wallet.get_derivation
  rw [he]
  exact hwf e (List.mem_of_find?_eq_some he)

theorem gap_bump_pure_length (w : Wallet) (inp : PsbtIn) (g : List Nat) :
    (gap_bump_pure w inp g).length = g.length := by
  unfold gap_bump_pure
  split
  · split
    · simp
    · rfl
  · rfl

theorem input_gap_bound_cons_pos (w : Wallet) (b : Nat) (inp : PsbtIn) (rest : List PsbtIn)
    (h : w.owns inp.key = true ∧ (w.get_derivation inp.key).1 = b) :
    input_gap_bound w b (inp :: rest) =
      max ((w.get_derivation inp.key).2 + w.gap_limit) (input_gap_bound w b rest) := by
  simp only [input_gap_bound]
  rw [if_pos h]

theorem input_gap_bound_cons_neg (w : Wallet) (b : Nat) (inp : PsbtIn) (rest : List PsbtIn)
    (h : ¬ (w.owns inp.key = true ∧ (w.get_derivation inp.key).1 = b)) :
    input_gap_bound w b (inp :: rest) = input_gap_bound w b rest := by
  simp only [input_gap_bound]
  rw [if_neg h]

theorem gap_bump_one_eq_pure (inp : PsbtIn) (w : Wallet) (g : List Nat)
    (hwf : ∀ e ∈ w.derivations, e.2.1 < g.length) :
    gap_bump_one inp (some w) g = .ok (gap_bump_pure w inp g) := by
  by_cases howns : w.owns inp.key = true
  · have hlt := owns_branch_lt w inp.key g.length hwf howns
    have hg : g.get? (w.get_derivation inp.key).1 = some (g.get ⟨_, hlt⟩) :=
      List.get?_eq_get hlt
    have hgetD : g.getD (w.get_derivation inp.key).1 0 = g.get ⟨_, hlt⟩ := by
      rw [List.getD_eq_get?, hg]
      rfl
    simp only [gap_bump_one, gap_bump_pure, howns, if_true, hg, hgetD]
  · simp [gap_bump_one, gap_bump_pure, howns]

theorem gap_bump_row_eq_pure (inp : PsbtIn) (ws : List (Option Wallet))
    (gs : List (List Nat)) (h : List.Forall₂ gaps_wf ws gs) :
    gap_bump_row inp ws gs = .ok (gap_bump_row_pure inp ws gs) := by
  induction h with
  | nil => rfl
  | @cons ow g wst gst hog htail ih =>
    cases ow with
    | none => simp only [gap_bump_row, gap_bump_one, gap_bump_row_pure, ih]
    | some w =>
      have h1 := gap_bump_one_eq_pure inp w g (hog w (by simp))
      simp only [gap_bump_row, gap_bump_row_pure, h1, ih]

theorem gap_bump_row_pure_wf (inp : PsbtIn) (ws : List (Option Wallet))
    (gs : List (List Nat)) (h : List.Forall₂ gaps_wf ws gs) :
    List.Forall₂ gaps_wf ws (gap_bump_row_pure inp ws gs) := by
  induction h with
  | nil => exact List.Forall₂.nil
  | @cons ow g wst gst hog htail ih =>
    refine List.Forall₂.cons ?_ ih
    cases ow with
    | none => exact hog
    | some w =>
      intro w2 hw2 e he
      have hww : w2 = w := by simpa using hw2
      subst hww
      show e.2.1 < (gap_bump_pure w2 inp g).length
      rw [gap_bump_pure_length]
      exact hog w2 (by simp) e he

theorem gap_bump_row_pure_get (inp : PsbtIn) (ws : List (Option Wallet)) :
    ∀ (gs : List (List Nat)) (i : Nat) (ow : Option Wallet) (g : List Nat),
      ws.length = gs.length → ws.get? i = some ow → gs.get? i = some g →
      (gap_bump_row_pure inp ws gs).get? i =
        some (match ow with | none => g | some w => gap_bump_pure w inp g) := by
  induction ws with
  | nil =>
    intro gs i ow g hlen hw hg
    simp at hw
  | cons ow0 wst ih =>
    intro gs i ow g hlen hw hg
    cases gs with
    | nil => simp at hlen
    | cons g0 gst =>
      cases i with
      | zero =>
        simp only [List.get?_cons_zero, Option.some.injEq] at hw hg
        subst hw
        subst hg
        rfl
      | succ j =>
        simp only [List.get?_cons_succ] at hw hg
        have := ih gst j ow g (by simpa using hlen) hw hg
        simpa [gap_bump_row_pure] using this

theorem compute_gaps_from_spec :
    ∀ (inputs : List PsbtIn) (ws : List (Option Wallet)) (gs : List (List Nat)),
      List.Forall₂ gaps_wf ws gs →
      ∃ gsF, compute_gaps_from ws inputs gs = .ok gsF ∧
        ∀ i w g, ws.get? i = some (some w) → gs.get? i = some g →
          gsF.get? i = some (inputs.foldl (fun acc inp => gap_bump_pure w inp acc) g) := by
  intro inputs
  induction inputs with
  | nil =>
    intro ws gs h
    refine ⟨gs, rfl, ?_⟩
    intro i w g hw hg
    simpa using hg
  | cons inp rest ih =>
    intro ws gs h
    have hrow := gap_bump_row_eq_pure inp ws gs h
    have hwf2 := gap_bump_row_pure_wf inp ws gs h
    obtain ⟨gsF, hok, hget⟩ := ih ws (gap_bump_row_pure inp ws gs) hwf2
    refine ⟨gsF, ?_, ?_⟩
    · simp only [compute_gaps_from, hrow]
      exact hok
    · intro i w g hw hg
      have hmid := gap_bump_row_pure_get inp ws gs i (some w) g h.length_eq hw hg
      have := hget i w (gap_bump_pure w inp g) hw (by simpa using hmid)
      simpa [List.foldl_cons] using this

theorem foldl_bump_getD :
    ∀ (inputs : List PsbtIn) (w : Wallet) (g : List Nat) (b : Nat),
      b < g.length → (∀ e ∈ w.derivations, e.2.1 < g.length) →
      (inputs.foldl (fun acc inp => gap_bump_pure w inp acc) g).getD b 0 =
        max (g.getD b 0) (input_gap_bound w b inputs) := by
  intro inputs
  induction inputs with
  | nil =>
    intro w g b hb hwf
    simp [input_gap_bound]
  | cons inp rest ih =>
    intro w g b hb hwf
    rw [List.foldl_cons]
    have hlen := gap_bump_pure_length w inp g
    have ih2 := ih w (gap_bump_pure w inp g) b (by rw [hlen]; exact hb)
      (by intro e he; rw [hlen]; exact hwf e he)
    rw [ih2]
    by_cases howns : w.owns inp.key = true
    · by_cases hbr : (w.get_derivation inp.key).1 = b
      · have hD : (gap_bump_pure w inp g).getD b 0 =
            max (g.getD b 0) ((w.get_derivation inp.key).2 + w.gap_limit) := by
          unfold gap_bump_pure
          rw [if_pos howns]
          simp only [hbr]
          split
          · rename_i hlt
            rw [List.getD_eq_get?, List.get?_set_eq_of_lt _ hb]
            simp only [Option.getD_some]
            exact (Nat.max_eq_right (Nat.le_of_lt hlt)).symm
          · rename_i hge
            exact (Nat.max_eq_left (by omega)).symm
        have hB := input_gap_bound_cons_pos w b inp rest ⟨howns, hbr⟩
        rw [hD, hB]
        exact Nat.max_assoc ..
      · have hD : (gap_bump_pure w inp g).getD b 0 = g.getD b 0 := by
          unfold gap_bump_pure
          rw [if_pos howns]
          split
          · rw [List.getD_eq_get?, List.get?_set_ne _ _ hbr, ← List.getD_eq_get?]
          · rfl
        have hB := input_gap_bound_cons_neg w b inp rest (by intro hand; exact hbr hand.2)
        rw [hD, hB]
    · have hD : gap_bump_pure w inp g = g := by
        unfold gap_bump_pure
        rw [if_neg howns]
      have hB := input_gap_bound_cons_neg w b inp rest (by intro hand; exact howns hand.1)
      rw [hD, hB]

/-- Claim C4 (confirmed): for every matched wallet and branch (covered by the
wallet's persisted gaps row), the effective gap bound computed from the
transaction equals the maximum of the wallet's persisted bound and the
input-driven bound `max input index on that branch + gap limit` — so it is
always ≥ the persisted bound, and inputs only ever raise it, never lower it. -/
theorem C4_gap_monotonicity (wallets : List (Option Wallet)) (inputs : List PsbtIn)
    (i b : Nat) (w : Wallet)
    (hw : wallets.get? i = some (some w))
    (hwf : ∀ ow ∈ wallets, ∀ w2 ∈ ow.toList, ∀ e ∈ w2.derivations, e.2.1 < w2.gaps.length)
    (hb : b < w.gaps.length) :
    (compute_gaps wallets inputs).map (fun gs => (gs.getD i []).getD b 0)
        = .ok (max (w.gaps.getD b 0) (input_gap_bound w b inputs))
    ∧ w.gaps.getD b 0 ≤ max (w.gaps.getD b 0) (input_gap_bound w b inputs) := by
  have hforall : List.Forall₂ gaps_wf wallets (init_gaps wallets) := by
    unfold init_gaps
    rw [List.forall₂_map_right_iff, List.forall₂_same]
    intro ow how w2 hw2 e he
    cases ow with
    | none => simp at hw2
    | some w3 =>
      have hww : w2 = w3 := by simpa using hw2
      subst hww
      exact hwf (some w2) how w2 (by simp) e he
  obtain ⟨gsF, hok, hget⟩ := compute_gaps_from_spec inputs wallets (init_gaps wallets) hforall
  have hgi : (init_gaps wallets).get? i = some w.gaps := by
    unfold init_gaps
    rw [List.get?_map, hw]
    rfl
  have hwmem : some w ∈ wallets := List.get?_mem hw
  have hwfw : ∀ e ∈ w.derivations, e.2.1 < w.gaps.length := hwf (some w) hwmem w (by simp)
  have hF := hget i w w.gaps hw hgi
  have hfold := foldl_bump_getD inputs w w.gaps b hb hwfw
  constructor
  · unfold compute_gaps
    rw [hok]
    have hgsF : gsF.getD i [] = inputs.foldl (fun acc inp => gap_bump_pure w inp acc) w.gaps := by
      rw [List.getD_eq_get?, hF]
      rfl
    simp only [Except.map, hgsF, hfold]
  · exact le_max_left _ _

/-- Witness for C4 on a one-wallet, one-input transaction: the effective bound
for branch 1 is max(persisted 2, input index 0 + gap limit 20) = 20 ≥ 2. -/
theorem C4_witness :
    (compute_gaps [some exW3] [exIn3]).map (fun gs => (gs.getD 0 []).getD 1 0)
        = .ok (max (exW3.gaps.getD 1 0) (input_gap_bound exW3 1 [exIn3]))
    ∧ exW3.gaps.getD 1 0 ≤ max (exW3.gaps.getD 1 0) (input_gap_bound exW3 1 [exIn3]) :=
  C4_gap_monotonicity [some exW3] [exIn3] 0 1 exW3 rfl (by decide) (by decide)

/-! ## C9 counterexample -/

/-- Counterexample to claim C9 as stated: importing a 32-byte asset id written
in uppercase hex and dumping the registry yields the lowercase hex string as
the JSON key, not the identical string that was imported (`hexlify` always
renders lowercase). -/
theorem C9_counterexample :
    Option.map assets_json (add_asset [] exHexUpper "GOLD") = some [(exHexLower, "GOLD")]
    ∧ exHexLower ≠ exHexUpper := by
  decide

/-! ## C9: asset label round trip -/

theorem hex_digit_val_lt (c : Char) (v : Nat) (h : hex_digit_val c = some v) : v < 16 := by
  unfold hex_digit_val at h
  split at h
  · rename_i h1
    injection h with h2
    omega
  · split at h
    · rename_i h2
      injection h with h3
      omega
    · split at h
      · rename_i h3
        injection h with h4
        omega
      · cases h

theorem hex_char_inj : ∀ m < 16, ∀ n < 16, hex_char m = hex_char n → m = n := by decide

theorem hex_chars_bounded_inj :
    ∀ (a : List Nat), (∀ x ∈ a, x < 256) → ∀ (b : List Nat), (∀ x ∈ b, x < 256) →
      hex_chars a = hex_chars b → a = b := by
  intro a
  induction a with
  | nil =>
    intro _ b hb h
    cases b with
    | nil => rfl
    | cons y ys => simp [hex_chars] at h
  | cons x xs ih =>
    intro ha b hb h
    cases b with
    | nil => simp [hex_chars] at h
    | cons y ys =>
      simp only [hex_chars, List.foldr_cons] at h
      rw [List.cons.injEq, List.cons.injEq] at h
      obtain ⟨h1, h2, h3⟩ := h
      have hx : x < 256 := ha x (by simp)
      have hy : y < 256 := hb y (by simp)
      have e1 := hex_char_inj (x % 256 / 16) (by omega) (y % 256 / 16) (by omega) h1
      have e2 := hex_char_inj (x % 16) (by omega) (y % 16) (by omega) h2
      have hxy : x = y := by omega
      subst hxy
      have htail := ih (fun z hz => ha z (by simp [hz])) ys (fun z hz => hb z (by simp [hz])) h3
      rw [htail]

theorem hexlify_bounded_inj (a b : List Nat) (ha : ∀ x ∈ a, x < 256)
    (hb : ∀ x ∈ b, x < 256) (h : hexlify a = hexlify b) : a = b := by
  unfold hexlify at h
  injection h with h2
  exact hex_chars_bounded_inj a ha b hb h2

theorem unhexlify_chars_bytes_lt :
    ∀ (cs : List Char) (bs : List Nat), unhexlify_chars cs = some bs → ∀ x ∈ bs, x < 256
  | [], bs, h => by
    injection h with h2
    subst h2
    intro x hx
    cases hx
  | [c], bs, h => Option.noConfusion h
  | c1 :: c2 :: rest, bs, h => by
    cases h1 : hex_digit_val c1 with
    | none =>
      rw [unhexlify_chars, h1] at h
      cases h
    | some hi =>
      cases h2 : hex_digit_val c2 with
      | none =>
        rw [unhexlify_chars, h1, h2] at h
        cases h
      | some lo =>
        cases h3 : unhexlify_chars rest with
        | none =>
          rw [unhexlify_chars, h1, h2, h3] at h
          cases h
        | some tail =>
          rw [unhexlify_chars, h1, h2, h3] at h
          injection h with h4
          subst h4
          intro x hx
          rcases List.mem_cons.mp hx with hx1 | hx2
          · have hhi := hex_digit_val_lt c1 hi h1
            have hlo := hex_digit_val_lt c2 lo h2
            omega
          · exact unhexlify_chars_bytes_lt rest tail h3 x hx2

theorem lower_digit_char (c : Char) (v : Nat)
    (hc : (48 ≤ c.toNat ∧ c.toNat ≤ 57) ∨ (97 ≤ c.toNat ∧ c.toNat ≤ 102))
    (h : hex_digit_val c = some v) : hex_char v = c := by
  unfold hex_digit_val at h
  unfold hex_char
  rcases hc with ⟨h1, h2⟩ | ⟨h1, h2⟩
  · rw [if_pos ⟨h1, h2⟩] at h
    injection h with h3
    subst h3
    rw [if_pos (by omega)]
    have he : 48 + (c.toNat - 48) = c.toNat := by omega
    rw [he]
    exact Char.ofNat_toNat c
  · rw [if_neg (by omega), if_pos ⟨h1, h2⟩] at h
    injection h with h3
    subst h3
    rw [if_neg (by omega)]
    have he : 87 + (c.toNat - 87) = c.toNat := by omega
    rw [he]
    exact Char.ofNat_toNat c

theorem unhexlify_lower_chars :
    ∀ (cs : List Char) (bs : List Nat),
      (∀ c ∈ cs, (48 ≤ c.toNat ∧ c.toNat ≤ 57) ∨ (97 ≤ c.toNat ∧ c.toNat ≤ 102)) →
      unhexlify_chars cs = some bs → hex_chars bs = cs
  | [], bs, _, h => by
    injection h with h2
    subst h2
    rfl
  | [c], bs, _, h => Option.noConfusion h
  | c1 :: c2 :: rest, bs, hlow, h => by
    cases h1 : hex_digit_val c1 with
    | none =>
      rw [unhexlify_chars, h1] at h
      cases h
    | some hi =>
      cases h2 : hex_digit_val c2 with
      | none =>
        rw [unhexlify_chars, h1, h2] at h
        cases h
      | some lo =>
        cases h3 : unhexlify_chars rest with
        | none =>
          rw [unhexlify_chars, h1, h2, h3] at h
          cases h
        | some tail =>
          rw [unhexlify_chars, h1, h2, h3] at h
          injection h with h4
          subst h4
          have hhi := hex_digit_val_lt c1 hi h1
          have hlo := hex_digit_val_lt c2 lo h2
          have e1 : (16 * hi + lo) % 256 / 16 = hi := by omega
          have e2 : (16 * hi + lo) % 16 = lo := by omega
          have hc1 := lower_digit_char c1 hi (hlow c1 (by simp)) h1
          have hc2 := lower_digit_char c2 lo (hlow c2 (by simp)) h2
          have ihtail := unhexlify_lower_chars rest tail (fun c hc => hlow c (by simp [hc])) h3
          show hex_char ((16 * hi + lo) % 256 / 16) :: hex_char ((16 * hi + lo) % 16)
              :: hex_chars tail = c1 :: c2 :: rest
          rw [e1, e2, hc1, hc2, ihtail]

theorem dict_get_cons {α β : Type} [BEq α] (p : α × β) (d : List (α × β)) (k : α) :
    dict_get (p :: d) k = if (p.1 == k) = true then some p.2 else dict_get d k := by
  unfold dict_get
  rw [List.find?_cons]
  by_cases h : (p.1 == k) = true
  · simp [h]
  · have h2 : (p.1 == k) = false := by
      cases hb : (p.1 == k) with
      | true => exact absurd hb h
      | false => rfl
    simp [h2]

theorem assets_json_cons (p : List Nat × String) (d : List (List Nat × String)) :
    assets_json (p :: d) = (hexlify p.1.reverse, p.2) :: assets_json d := rfl

theorem dict_get_map_set {α β : Type} [BEq α] [LawfulBEq α] :
    ∀ (d : List (α × β)) (k : α) (v : β), d.any (fun p => p.1 == k) = true →
      dict_get (d.map (fun p => if p.1 == k then (k, v) else p)) k = some v := by
  intro d k v
  induction d with
  | nil =>
    intro h
    simp at h
  | cons p rest ih =>
    intro hany
    by_cases hp : (p.1 == k) = true
    · simp only [List.map_cons]
      rw [if_pos hp, dict_get_cons, if_pos (beq_self_eq_true _)]
    · have hp2 : (p.1 == k) = false := by
        cases hb : (p.1 == k) with
        | true => exact absurd hb hp
        | false => rfl
      have hrest : rest.any (fun p => p.1 == k) = true := by
        rw [List.any_cons, hp2, Bool.false_or] at hany
        exact hany
      simp only [List.map_cons]
      rw [if_neg hp, dict_get_cons, if_neg hp]
      exact ih hrest

theorem dict_get_append_new {α β : Type} [BEq α] [LawfulBEq α] :
    ∀ (d : List (α × β)) (k : α) (v : β), d.any (fun p => p.1 == k) = false →
      dict_get (d ++ [(k, v)]) k = some v := by
  intro d k v
  induction d with
  | nil =>
    intro _
    show dict_get [(k, v)] k = some v
    rw [dict_get_cons, if_pos (beq_self_eq_true _)]
  | cons p rest ih =>
    intro hany
    rw [List.any_cons, Bool.or_eq_false_iff] at hany
    rw [List.cons_append, dict_get_cons, if_neg (by rw [hany.1]; exact Bool.false_ne_true)]
    exact ih hany.2

theorem dict_get_dict_set {α β : Type} [BEq α] [LawfulBEq α]
    (d : List (α × β)) (k : α) (v : β) :
    dict_get (dict_set d k v) k = some v := by
  unfold dict_set
  split
  · exact dict_get_map_set d k v (by assumption)
  · exact dict_get_append_new d k v (by rename_i h; exact Bool.not_eq_true _ ▸ h)

theorem assets_json_key_ne (p : List Nat × String) (k : List Nat)
    (hpb : ∀ x ∈ p.1, x < 256) (hkb : ∀ x ∈ k, x < 256)
    (hp : (p.1 == k) = false) :
    (hexlify p.1.reverse == hexlify k.reverse) = false := by
  cases hb : (hexlify p.1.reverse == hexlify k.reverse) with
  | false => rfl
  | true =>
    exfalso
    have heq : hexlify p.1.reverse = hexlify k.reverse := eq_of_beq hb
    have h1 : p.1.reverse = k.reverse :=
      hexlify_bounded_inj _ _ (fun x hx => hpb x (List.mem_reverse.mp hx))
        (fun x hx => hkb x (List.mem_reverse.mp hx)) heq
    have h2 : p.1 = k := by
      have := congrArg List.reverse h1
      simpa using this
    rw [h2, beq_self_eq_true] at hp
    cases hp

theorem assets_json_map_set :
    ∀ (assets : List (List Nat × String)) (k : List Nat) (lbl : String),
      (∀ x ∈ k, x < 256) → (∀ p ∈ assets, ∀ x ∈ p.1, x < 256) →
      assets.any (fun p => p.1 == k) = true →
      dict_get (assets_json (assets.map (fun p => if p.1 == k then (k, lbl) else p)))
        (hexlify k.reverse) = some lbl := by
  intro assets k lbl hk
  induction assets with
  | nil =>
    intro _ h
    simp at h
  | cons p rest ih =>
    intro hbytes hany
    by_cases hp : (p.1 == k) = true
    · simp only [List.map_cons]
      rw [if_pos hp, assets_json_cons, dict_get_cons, if_pos (beq_self_eq_true _)]
    · have hp2 : (p.1 == k) = false := by
        cases hb : (p.1 == k) with
        | true => exact absurd hb hp
        | false => rfl
      have hrest : rest.any (fun p => p.1 == k) = true := by
        rw [List.any_cons, hp2, Bool.false_or] at hany
        exact hany
      have hne := assets_json_key_ne p k (hbytes p (by simp)) hk hp2
      simp only [List.map_cons]
      rw [if_neg hp, assets_json_cons, dict_get_cons,
        if_neg (by rw [hne]; exact Bool.false_ne_true)]
      exact ih (fun q hq => hbytes q (by simp [hq])) hrest

theorem assets_json_append_new :
    ∀ (assets : List (List Nat × String)) (k : List Nat) (lbl : String),
      (∀ x ∈ k, x < 256) → (∀ p ∈ assets, ∀ x ∈ p.1, x < 256) →
      assets.any (fun p => p.1 == k) = false →
      dict_get (assets_json (assets ++ [(k, lbl)])) (hexlify k.reverse) = some lbl := by
  intro assets k lbl hk
  induction assets with
  | nil =>
    intro _ _
    show dict_get (assets_json [(k, lbl)]) (hexlify k.reverse) = some lbl
    rw [assets_json_cons, dict_get_cons, if_pos (beq_self_eq_true _)]
  | cons p rest ih =>
    intro hbytes hany
    rw [List.any_cons, Bool.or_eq_false_iff] at hany
    have hne := assets_json_key_ne p k (hbytes p (by simp)) hk hany.1
    rw [List.cons_append, assets_json_cons, dict_get_cons,
      if_neg (by rw [hne]; exact Bool.false_ne_true)]
    exact ih (fun q hq => hbytes q (by simp [hq])) hany.2

/-- Claim C9 (corrected): importing an asset id as a hex string and dumping
the registry maps the LOWERCASE hex rendering of the imported bytes — equal
to the imported string exactly when it was lowercase — to the identical
label, and the internal storage key is the byte-reversed id (the dumped key
re-reverses it). -/
theorem C9_asset_label_roundtrip (assets : List (List Nat × String))
    (hexasset lbl : String) (b : List Nat)
    (hhex : unhexlify hexasset = some b)
    (hbytes : ∀ p ∈ assets, ∀ x ∈ p.1, x < 256) :
    Option.map (fun d => dict_get (assets_json d) (hexlify b)) (add_asset assets hexasset lbl)
        = some (some lbl)
    ∧ Option.map (fun d => dict_get d b.reverse) (add_asset assets hexasset lbl)
        = some (some lbl)
    ∧ ((∀ c ∈ hexasset.data, (48 ≤ c.toNat ∧ c.toNat ≤ 57) ∨ (97 ≤ c.toNat ∧ c.toNat ≤ 102)) →
        hexlify b = hexasset) := by
  have hb256 : ∀ x ∈ b, x < 256 := unhexlify_chars_bytes_lt hexasset.data b hhex
  have hrb : ∀ x ∈ b.reverse, x < 256 := fun x hx => hb256 x (List.mem_reverse.mp hx)
  have hadd : add_asset assets hexasset lbl = some (dict_set assets b.reverse lbl) := by
    simp [add_asset, hhex]
  refine ⟨?_, ?_, ?_⟩
  · rw [hadd]
    simp only [Option.map]
    refine congrArg some ?_
    unfold dict_set
    split
    · rename_i hany
      have := assets_json_map_set assets b.reverse lbl hrb hbytes hany
      rwa [List.reverse_reverse] at this
    · rename_i hany
      have := assets_json_append_new assets b.reverse lbl hrb hbytes
        (Bool.not_eq_true _ ▸ hany)
      rwa [List.reverse_reverse] at this
  · rw [hadd]
    simp only [Option.map]
    exact congrArg some (dict_get_dict_set assets b.reverse lbl)
  · intro hlow
    have hrt := unhexlify_lower_chars hexasset.data b hlow hhex
    unfold hexlify
    rw [hrt]

/-- Witness for C9: importing asset id "00ff" with label "LBTC" dumps the key
"00ff" (lowercase input round-trips identically) with the same label, and the
internal key is the reversed byte string. -/
theorem C9_witness :
    Option.map (fun d => dict_get (assets_json d) (hexlify [0, 255])) (add_asset [] "00ff" "LBTC")
        = some (some "LBTC")
    ∧ Option.map (fun d => dict_get d ([0, 255] : List Nat).reverse) (add_asset [] "00ff" "LBTC")
        = some (some "LBTC")
    ∧ hexlify [0, 255] = "00ff" := by
  have h := C9_asset_label_roundtrip [] "00ff" "LBTC" [0, 255] (by rfl) (by simp)
  exact ⟨h.1, h.2.1, h.2.2 (by decide)⟩

end SpecterDIY
